import Mathlib

/-!
Verification of the AppPulse dashboard (src/dashboard.py) filter and
aggregation pipeline against its natural-language specification.

Modelling conventions, shared by all definitions below:

* A pandas DataFrame row is the structure AppRecord; the dataframe itself is a
  List AppRecord in original row order.
* Python/pandas floats are modelled as rationals; NaN cells (missing values)
  are modelled as the none case of Option, so a float column that may hold NaN
  becomes Option ℚ and an integer-valued column that may hold NaN becomes
  Option ℕ.  Pandas comparisons with NaN are false, pandas reductions
  (mean, sum, count) skip NaN, and pandas groupby drops NaN keys; each
  modelled definition encodes those semantics explicitly.
* Python strings are modelled as List Char.
* The Type column is modelled by the two-valued enumeration AppType, following
  the data model of the specification (type: Free | Paid).
-/

namespace AppPulse

/-- The Type column of the dataset: Free or Paid apps
(spec data model: type (enum: Free | Paid)). -/
inductive AppType where
  | Free : AppType
  | Paid : AppType
deriving DecidableEq

/-- One row of the loaded dataset (one app), with the columns used by
src/dashboard.py.  The column named Type in the source is the field Type_
(Type is a Lean keyword). -/
structure AppRecord where
  App : Option (List Char)
  Category : Option (List Char)
  Type_ : AppType
  Rating : Option ℚ
  Reviews : Option ℕ
  Installs_Clean : Option ℕ
  Price_Clean : Option ℚ
  Size_MB : Option ℚ
  sentiment_polarity_mean : Option ℚ
  positive_percentage : Option ℚ
  negative_percentage : Option ℚ
deriving DecidableEq

/-- The user-selected filter controls of the sidebar
(src/dashboard.py lines 128-139): selected_category is none for
the 'All Categories' choice, selected_type is none for 'All Types'. -/
structure FilterCriteria where
  selected_category : Option (List Char)
  selected_type : Option AppType
  min_rating : ℚ
  min_reviews : ℕ
deriving DecidableEq

/-- Pandas comparison (Rating >= min_rating) on a float column:
a NaN cell compares false. -/
def optGeQ (x : Option ℚ) (m : ℚ) : Bool :=
  match x with
  | none => false
  | some v => decide (m ≤ v)

/-- Pandas comparison (Reviews >= min_reviews) on a count column:
a NaN cell compares false. -/
def optGeN (x : Option ℕ) (m : ℕ) : Bool :=
  match x with
  | none => false
  | some v => decide (m ≤ v)

/-- Filter step of src/dashboard.py lines 144-145: keep rows whose Category
equals the selected category; with 'All Categories' the frame is unchanged.
A NaN Category never equals a selected category string (pandas == with NaN
is false). -/
def filterCategory (df : List AppRecord) (sel : Option (List Char)) :
    List AppRecord :=
  match sel with
  | none => df
  | some cat => df.filter (fun r => decide (r.Category = some cat))

/-- Filter step of src/dashboard.py lines 147-148: keep rows whose Type
equals the selected type; with 'All Types' the frame is unchanged. -/
def filterType (df : List AppRecord) (sel : Option AppType) :
    List AppRecord :=
  match sel with
  | none => df
  | some t => df.filter (fun r => decide (r.Type_ = t))

/-- The filtered dataframe df_filtered of src/dashboard.py lines 142-151:
the four filter steps applied in source order (category, type, rating
threshold, review-count threshold). -/
def df_filtered (df : List AppRecord) (c : FilterCriteria) : List AppRecord :=
  ((filterType (filterCategory df c.selected_category) c.selected_type).filter
      (fun r => optGeQ r.Rating c.min_rating)).filter
      (fun r => optGeN r.Reviews c.min_reviews)

lemma filterCategory_sublist (df : List AppRecord) (sel : Option (List Char)) :
    (filterCategory df sel).Sublist df := by
  cases sel with
  | none => exact List.Sublist.refl df
  | some cat => exact List.filter_sublist df

lemma filterType_sublist (df : List AppRecord) (sel : Option AppType) :
    (filterType df sel).Sublist df := by
  cases sel with
  | none => exact List.Sublist.refl df
  | some t => exact List.filter_sublist df

lemma sublist_filterType {l l' : List AppRecord} (sel : Option AppType)
    (h : l.Sublist l') : (filterType l sel).Sublist (filterType l' sel) := by
  cases sel with
  | none => exact h
  | some t => exact h.filter _

/-- Claim C2: for every Dataset and every FilterCriteria, the filtered view
df_filtered is a sublist of the dataset: every row of the result is a row of
the input, no row is added or altered, and the surviving rows keep their
original dataset order (all of which the sublist relation expresses). -/
theorem df_filtered_sublist (df : List AppRecord) (c : FilterCriteria) :
    (df_filtered df c).Sublist df := by
  refine List.Sublist.trans ?_ (filterCategory_sublist df c.selected_category)
  refine List.Sublist.trans ?_
    (filterType_sublist (filterCategory df c.selected_category) c.selected_type)
  exact List.Sublist.trans (List.filter_sublist _) (List.filter_sublist _)

/-- A single tightening of the filter controls, holding the other controls
fixed: raising the minimum-rating threshold, raising the minimum-reviews
threshold, narrowing the category selector from 'All Categories' to one
category, or narrowing the type selector from 'All Types' to one type. -/
def TightensOne (c c' : FilterCriteria) : Prop :=
  (c'.selected_category = c.selected_category ∧
     c'.selected_type = c.selected_type ∧
     c'.min_reviews = c.min_reviews ∧ c.min_rating ≤ c'.min_rating) ∨
  (c'.selected_category = c.selected_category ∧
     c'.selected_type = c.selected_type ∧
     c'.min_rating = c.min_rating ∧ c.min_reviews ≤ c'.min_reviews) ∨
  (c.selected_category = none ∧ c'.selected_category.isSome ∧
     c'.selected_type = c.selected_type ∧
     c'.min_rating = c.min_rating ∧ c'.min_reviews = c.min_reviews) ∨
  (c.selected_type = none ∧ c'.selected_type.isSome ∧
     c'.selected_category = c.selected_category ∧
     c'.min_rating = c.min_rating ∧ c'.min_reviews = c.min_reviews)

lemma optGeQ_imp_of_le {m m' : ℚ} (h : m ≤ m') (x : Option ℚ) :
    optGeQ x m' = true → optGeQ x m = true := by
  cases x with
  | none => simp [optGeQ]
  | some v =>
      simp only [optGeQ, decide_eq_true_eq]
      exact fun h' => le_trans h h'

lemma optGeN_imp_of_le {m m' : ℕ} (h : m ≤ m') (x : Option ℕ) :
    optGeN x m' = true → optGeN x m = true := by
  cases x with
  | none => simp [optGeN]
  | some v =>
      simp only [optGeN, decide_eq_true_eq]
      exact fun h' => le_trans h h'

/-- Claim C3: filtering is monotonic.  Any single tightening of the filter
controls (raising the rating threshold, raising the review-count threshold,
narrowing the category selector from 'all' to one category, or narrowing the
type selector from 'all' to one type) never increases the number of rows of
the filtered view. -/
theorem df_filtered_monotone (df : List AppRecord) (c c' : FilterCriteria)
    (h : TightensOne c c') :
    (df_filtered df c').length ≤ (df_filtered df c).length := by
  refine List.Sublist.length_le ?_
  rcases h with ⟨h1, h2, h3, h4⟩ | ⟨h1, h2, h3, h4⟩ |
    ⟨h1, h2, h3, h4, h5⟩ | ⟨h1, h2, h3, h4, h5⟩
  · unfold df_filtered
    rw [h1, h2, h3]
    exact List.Sublist.filter _
      (List.monotone_filter_right _ (fun r => optGeQ_imp_of_le h4 r.Rating))
  · unfold df_filtered
    rw [h1, h2, h3]
    exact List.monotone_filter_right _ (fun r => optGeN_imp_of_le h4 r.Reviews)
  · unfold df_filtered
    rw [h3, h4, h5]
    refine List.Sublist.filter _ (List.Sublist.filter _ (sublist_filterType _ ?_))
    rw [h1]
    exact filterCategory_sublist df c'.selected_category
  · unfold df_filtered
    rw [h3, h4, h5]
    refine List.Sublist.filter _ (List.Sublist.filter _ ?_)
    rw [h1]
    exact filterType_sublist _ c'.selected_type

/-- Claim C4: a row whose Rating is absent or whose Reviews is absent is never
in the filtered view, for every criteria, in particular for the loosest
thresholds min_rating = 0 and min_reviews = 0: a NaN never satisfies the >=
comparison of the threshold filters. -/
theorem missing_excluded (df : List AppRecord) (c : FilterCriteria)
    (r : AppRecord) (h : r.Rating = none ∨ r.Reviews = none) :
    r ∉ df_filtered df c := by
  intro hmem
  unfold df_filtered at hmem
  rcases h with h | h
  · have := (List.mem_filter.mp ((List.mem_filter.mp hmem).1)).2
    rw [h] at this
    simp [optGeQ] at this
  · have := (List.mem_filter.mp hmem).2
    rw [h] at this
    simp [optGeN] at this

/-- The character of a single decimal digit. -/
def digitChar (d : ℕ) : Char :=
  match d with
  | 0 => '0' | 1 => '1' | 2 => '2' | 3 => '3' | 4 => '4'
  | 5 => '5' | 6 => '6' | 7 => '7' | 8 => '8' | 9 => '9'
  | _ => '*'

/-- The numeric value of a decimal digit character. -/
def digitVal (c : Char) : ℕ := c.toNat - 48

/-- Decimal digit test, as Python str.isdigit on ASCII. -/
def isDigit (c : Char) : Bool := decide (48 ≤ c.toNat) && decide (c.toNat ≤ 57)

/-- Fuel-driven big-endian decimal digit writer (fuel bounds the recursion
depth; fuel = n always suffices). -/
def natDecGo : ℕ → ℕ → List Char
  | 0, _ => []
  | f + 1, n => if n = 0 then [] else natDecGo f (n / 10) ++ [digitChar (n % 10)]

/-- Decimal text of a natural number, as Python prints it. -/
def natDec (n : ℕ) : List Char := if n = 0 then ['0'] else natDecGo n n

/-- Value of a big-endian decimal digit string. -/
def decValue (cs : List Char) : ℕ := cs.foldl (fun a c => 10 * a + digitVal c) 0

/-- Parse a non-empty all-digit string as a natural number; anything else is
rejected. -/
def parseNatDec (cs : List Char) : Option ℕ :=
  if cs.isEmpty then none
  else if cs.all isDigit then some (decValue cs) else none

lemma digitVal_digitChar {d : ℕ} (h : d < 10) : digitVal (digitChar d) = d := by
  interval_cases d <;> rfl

lemma isDigit_digitChar {d : ℕ} (h : d < 10) : isDigit (digitChar d) = true := by
  interval_cases d <;> rfl

lemma natDecGo_eq_digits (f : ℕ) : ∀ n : ℕ, n ≤ f →
    natDecGo f n = (Nat.digits 10 n).reverse.map digitChar := by
  induction f with
  | zero =>
      intro n hn
      have : n = 0 := Nat.le_zero.mp hn
      subst this
      simp [natDecGo]
  | succ f ih =>
      intro n hn
      by_cases h0 : n = 0
      · subst h0; simp [natDecGo]
      · have hpos : 0 < n := Nat.pos_of_ne_zero h0
        have hdiv : n / 10 ≤ f := by
          have := Nat.div_lt_self hpos (by norm_num : 1 < 10)
          omega
        rw [natDecGo, if_neg h0, ih _ hdiv,
          Nat.digits_def' (by norm_num : 1 < 10) hpos]
        simp

lemma natDec_eq_digits {n : ℕ} (h : n ≠ 0) :
    natDec n = (Nat.digits 10 n).reverse.map digitChar := by
  rw [natDec, if_neg h, natDecGo_eq_digits n n le_rfl]

lemma foldr_digits_ofDigits (l : List ℕ) (h : ∀ d ∈ l, d < 10) :
    l.foldr (fun d a => 10 * a + digitVal (digitChar d)) 0 = Nat.ofDigits 10 l := by
  induction l with
  | nil => rfl
  | cons d l ih =>
      have hd : d < 10 := h d (List.mem_cons_self d l)
      have hl : ∀ x ∈ l, x < 10 := fun x hx => h x (List.mem_cons_of_mem d hx)
      rw [List.foldr_cons, ih hl, digitVal_digitChar hd, Nat.ofDigits_cons]
      omega

lemma decValue_natDec (n : ℕ) : decValue (natDec n) = n := by
  by_cases h0 : n = 0
  · subst h0; rfl
  · rw [natDec_eq_digits h0]
    unfold decValue
    rw [List.map_reverse, List.foldl_reverse, List.foldr_map]
    have := foldr_digits_ofDigits (Nat.digits 10 n)
      (fun d hd => Nat.digits_lt_base (by norm_num) hd)
    calc (Nat.digits 10 n).foldr (fun x y => 10 * y + digitVal (digitChar x)) 0
        = (Nat.digits 10 n).foldr (fun d a => 10 * a + digitVal (digitChar d)) 0 := rfl
      _ = Nat.ofDigits 10 (Nat.digits 10 n) := this
      _ = n := Nat.ofDigits_digits 10 n

lemma natDec_ne_nil (n : ℕ) : natDec n ≠ [] := by
  by_cases h0 : n = 0
  · subst h0; simp [natDec]
  · rw [natDec_eq_digits h0]
    simp [Nat.digits_ne_nil_iff_ne_zero.mpr h0]

lemma natDec_all_digits (n : ℕ) : ∀ c ∈ natDec n, isDigit c = true := by
  by_cases h0 : n = 0
  · subst h0
    intro c hc
    simp [natDec] at hc
    subst hc; rfl
  · rw [natDec_eq_digits h0]
    intro c hc
    simp only [List.mem_map, List.mem_reverse] at hc
    obtain ⟨d, hd, rfl⟩ := hc
    exact isDigit_digitChar (Nat.digits_lt_base (by norm_num) hd)

lemma parseNatDec_natDec (n : ℕ) : parseNatDec (natDec n) = some n := by
  rw [parseNatDec, if_neg (by simp [natDec_ne_nil n]), if_pos ?_, decValue_natDec]
  exact List.all_eq_true.mpr (natDec_all_digits n)

lemma natDec_length_le {n k : ℕ} (hk : k ≠ 0) (h : n < 10 ^ k) :
    (natDec n).length ≤ k := by
  by_cases h0 : n = 0
  · subst h0
    simp [natDec]
    omega
  · rw [natDec_eq_digits h0]
    simp only [List.length_map, List.length_reverse]
    rw [Nat.digits_len 10 n (by norm_num) h0]
    have := (Nat.lt_pow_iff_log_lt (by norm_num : 1 < 10) h0).mp h
    omega

/-- Fractional digits of a fixed-point decimal: the decimal text of m,
zero-padded on the left to exactly k digits. -/
def padDigits (k m : ℕ) : List Char :=
  List.replicate (k - (natDec m).length) '0' ++ natDec m

/-- Fixed-point decimal text of a natural number m scaled by 10^(-k):
the text of m / 10^k with exactly k digits after the point (no point when
k = 0). -/
def fixedDecNN (m k : ℕ) : List Char :=
  if k = 0 then natDec m
  else natDec (m / 10 ^ k) ++ '.' :: padDigits k (m % 10 ^ k)

/-- Fixed-point decimal text of the integer-scaled value n * 10^(-k), with a
leading minus sign for negative n. -/
def fixedDec (n : ℤ) (k : ℕ) : List Char :=
  if n < 0 then '-' :: fixedDecNN n.natAbs k else fixedDecNN n.natAbs k

/-- Split a string at its first '.' (the split point char stays with the
second component). -/
def spanDot : List Char → List Char × List Char
  | [] => ([], [])
  | c :: cs =>
      if c = '.' then ([], c :: cs)
      else
        let p := spanDot cs
        (c :: p.1, p.2)

/-- Parse an unsigned plain decimal numeral, with an optional fractional
part: digits, optionally followed by '.' and more digits. -/
def parseUnsignedDec (cs : List Char) : Option ℚ :=
  let p := spanDot cs
  match parseNatDec p.1 with
  | none => none
  | some ip =>
      match p.2 with
      | [] => some (ip : ℚ)
      | _ :: frac =>
          if frac.isEmpty then none
          else if frac.all isDigit then
            some ((ip : ℚ) + (decValue frac : ℚ) / 10 ^ frac.length)
          else none

/-- Parse a plain decimal numeral with an optional leading minus sign, the
form in which the modelled CSV writer prints numbers. -/
def parseRatDec (cs : List Char) : Option ℚ :=
  if cs.head? = some '-' then (parseUnsignedDec cs.tail).map (fun q => -q)
  else parseUnsignedDec cs

lemma ne_dot_of_isDigit {c : Char} (h : isDigit c = true) : c ≠ '.' := by
  intro hc
  subst hc
  exact absurd h (by decide)

lemma ne_dash_of_isDigit {c : Char} (h : isDigit c = true) : c ≠ '-' := by
  intro hc
  subst hc
  exact absurd h (by decide)

lemma spanDot_append (l1 l2 : List Char) (h : ∀ c ∈ l1, c ≠ '.') :
    spanDot (l1 ++ '.' :: l2) = (l1, '.' :: l2) := by
  induction l1 with
  | nil => simp [spanDot]
  | cons c cs ih =>
      have hc : c ≠ '.' := h c (List.mem_cons_self c cs)
      simp only [List.cons_append, spanDot, if_neg hc, List.append_eq]
      rw [ih (fun x hx => h x (List.mem_cons_of_mem c hx))]

lemma spanDot_no_dot (l : List Char) (h : ∀ c ∈ l, c ≠ '.') :
    spanDot l = (l, []) := by
  induction l with
  | nil => rfl
  | cons c cs ih =>
      have hc : c ≠ '.' := h c (List.mem_cons_self c cs)
      simp only [spanDot, if_neg hc]
      rw [ih (fun x hx => h x (List.mem_cons_of_mem c hx))]

lemma foldl_decValue_replicate0 (j : ℕ) :
    List.foldl (fun a c => 10 * a + digitVal c) 0 (List.replicate j '0') = 0 := by
  induction j with
  | zero => rfl
  | succ j ih =>
      rw [List.replicate_succ, List.foldl_cons]
      have : (10 * 0 + digitVal '0' : ℕ) = 0 := by decide
      rw [this, ih]

lemma decValue_padDigits (k m : ℕ) :
    decValue (padDigits k m) = m := by
  unfold padDigits decValue
  rw [List.foldl_append, foldl_decValue_replicate0]
  exact decValue_natDec m

lemma padDigits_length {k m : ℕ} (hk : k ≠ 0) (h : m < 10 ^ k) :
    (padDigits k m).length = k := by
  unfold padDigits
  have := natDec_length_le hk h
  simp only [List.length_append, List.length_replicate]
  omega

lemma padDigits_all_digits (k m : ℕ) : (padDigits k m).all isDigit = true := by
  unfold padDigits
  rw [List.all_eq_true]
  intro c hc
  rcases List.mem_append.mp hc with hc | hc
  · rw [List.eq_of_mem_replicate hc]
    rfl
  · exact natDec_all_digits m c hc

lemma parseUnsignedDec_fixedDecNN (m k : ℕ) :
    parseUnsignedDec (fixedDecNN m k) = some ((m : ℚ) / 10 ^ k) := by
  by_cases hk : k = 0
  · subst hk
    unfold fixedDecNN parseUnsignedDec
    rw [if_pos rfl,
      spanDot_no_dot _ (fun c hc => ne_dot_of_isDigit (natDec_all_digits m c hc))]
    simp [parseNatDec_natDec m]
  · have hmod : m % 10 ^ k < 10 ^ k := Nat.mod_lt m (Nat.pos_pow_of_pos k (by norm_num))
    unfold fixedDecNN parseUnsignedDec
    rw [if_neg hk,
      spanDot_append _ _ (fun c hc => ne_dot_of_isDigit (natDec_all_digits _ c hc))]
    simp only [parseNatDec_natDec]
    have hne : (padDigits k (m % 10 ^ k)).isEmpty = false := by
      rw [List.isEmpty_eq_false]
      intro hcon
      have := padDigits_length hk hmod
      rw [hcon] at this
      simp at this
      omega
    rw [hne]
    simp only [Bool.false_eq_true, if_false, padDigits_all_digits, if_true,
      decValue_padDigits, padDigits_length hk hmod]
    have h10 : ((10 : ℚ) ^ k) ≠ 0 := by positivity
    have hsplit : (10 ^ k * (m / 10 ^ k) + m % 10 ^ k : ℕ) = m := Nat.div_add_mod m (10 ^ k)
    have hcast : ((10 : ℚ) ^ k * ((m / 10 ^ k : ℕ) : ℚ) + ((m % 10 ^ k : ℕ) : ℚ))
        = ((10 ^ k * (m / 10 ^ k) + m % 10 ^ k : ℕ) : ℚ) := by
      push_cast
      ring
    rw [hsplit] at hcast
    rw [← hcast, add_div, mul_div_cancel_left₀ _ h10]

lemma fixedDecNN_head_digit (m k : ℕ) :
    ∃ c rest, fixedDecNN m k = c :: rest ∧ isDigit c = true := by
  by_cases hk : k = 0
  · subst hk
    cases h : natDec m with
    | nil => exact absurd h (natDec_ne_nil m)
    | cons c cs =>
        refine ⟨c, cs, ?_, ?_⟩
        · rw [fixedDecNN, if_pos rfl, h]
        · exact natDec_all_digits m c (by rw [h]; exact List.mem_cons_self c cs)
  · cases h : natDec (m / 10 ^ k) with
    | nil => exact absurd h (natDec_ne_nil _)
    | cons c cs =>
        refine ⟨c, cs ++ '.' :: padDigits k (m % 10 ^ k), ?_, ?_⟩
        · rw [fixedDecNN, if_neg hk, h]
          rfl
        · exact natDec_all_digits _ c (by rw [h]; exact List.mem_cons_self c cs)

lemma parseRatDec_fixedDec (n : ℤ) (k : ℕ) :
    parseRatDec (fixedDec n k) = some ((n : ℚ) / 10 ^ k) := by
  obtain ⟨c, rest, hrep, hdig⟩ := fixedDecNN_head_digit n.natAbs k
  by_cases hn : n < 0
  · rw [fixedDec, if_pos hn, parseRatDec]
    simp only [List.head?_cons, List.tail_cons, if_pos rfl]
    rw [parseUnsignedDec_fixedDecNN]
    have habs : ((n.natAbs : ℚ)) = -(n : ℚ) := by
      rw [Int.cast_natAbs, abs_of_neg hn]
      push_cast
      ring
    simp [habs, neg_div]
  · rw [fixedDec, if_neg hn, parseRatDec, hrep]
    have hcne : c ≠ '-' := ne_dash_of_isDigit hdig
    rw [if_neg (by simpa using hcne), ← hrep, parseUnsignedDec_fixedDecNN]
    have habs : ((n.natAbs : ℚ)) = (n : ℚ) := by
      rw [Int.cast_natAbs, abs_of_nonneg (le_of_not_lt hn)]
    rw [habs]

/-- Fuel-driven multiplicity of p in n (how many times p divides n); fuel = n
always suffices. -/
def pvalGo : ℕ → ℕ → ℕ → ℕ
  | 0, _, _ => 0
  | f + 1, p, n => if 2 ≤ p ∧ n ≠ 0 ∧ p ∣ n then 1 + pvalGo f p (n / p) else 0

/-- Number of decimal digits needed after the point for an exact decimal
rendering of q (when one exists): the larger of the multiplicities of 2 and 5
in the reduced denominator. -/
def decScale (q : ℚ) : ℕ :=
  max (pvalGo q.den 2 q.den) (pvalGo q.den 5 q.den)

/-- Exact plain-decimal text of a rational.  This models the text pandas
DataFrame.to_csv writes for a float cell: Python prints floats with a
round-tripping shortest decimal representation, and every float is a decimal
rational, so at the value level the cell text denotes the cell value exactly.
(Pandas may choose the scientific form for extreme magnitudes; the model
always writes plain positional digits.)  Values with no exact decimal
representation (impossible for floats) render as a placeholder. -/
def ratDec (q : ℚ) : List Char :=
  if (q * 10 ^ decScale q).den = 1 then fixedDec (q * 10 ^ decScale q).num (decScale q)
  else ['?']

lemma parseRatDec_ratDec (q : ℚ) (h : (q.den : ℕ) ∣ 10 ^ decScale q) :
    parseRatDec (ratDec q) = some q := by
  obtain ⟨c, hc⟩ := h
  have hdenq : ((q.den : ℚ)) ≠ 0 := by
    exact_mod_cast q.den_nz
  have h2 : ((10 : ℚ)) ^ decScale q = (q.den : ℚ) * (c : ℚ) := by
    exact_mod_cast congrArg (fun x : ℕ => (x : ℚ)) hc
  have hqden : (q.num : ℚ) = q * (q.den : ℚ) :=
    (div_eq_iff hdenq).mp (Rat.num_div_den q)
  have hq10 : q * 10 ^ decScale q = ((q.num * (c : ℤ) : ℤ) : ℚ) := by
    rw [h2]
    calc q * ((q.den : ℚ) * (c : ℚ)) = q * (q.den : ℚ) * (c : ℚ) := by ring
      _ = (q.num : ℚ) * (c : ℚ) := by rw [← hqden]
      _ = ((q.num * (c : ℤ) : ℤ) : ℚ) := by push_cast; ring
  have hden1 : (q * 10 ^ decScale q).den = 1 := by
    rw [hq10]
    exact Rat.den_intCast _
  have hnum : (q * 10 ^ decScale q).num = q.num * (c : ℤ) := by
    rw [hq10]
    exact Rat.num_intCast _
  rw [ratDec, if_pos hden1, hnum, parseRatDec_fixedDec]
  have h10 : ((10 : ℚ)) ^ decScale q ≠ 0 := by positivity
  rw [← hq10, mul_div_assoc, div_self h10, mul_one]

/-- Characters of a string literal (convenience for concrete inputs). -/
def str (s : String) : List Char := s.data

/-- Round half to even, the rounding Python uses when formatting floats. -/
def roundHalfEven (x : ℚ) : ℤ :=
  if (1 / 2 : ℚ) < x - ⌊x⌋ then ⌊x⌋ + 1
  else if x - ⌊x⌋ < (1 / 2 : ℚ) then ⌊x⌋
  else if ⌊x⌋ % 2 = 0 then ⌊x⌋ else ⌊x⌋ + 1

/-- Python fixed-point formatting with k digits after the point, the
f-string form used by the metric labels of src/dashboard.py.  A NaN value
(modelled as the none case) formats as the text nan, exactly as Python
formats float('nan'); a number is rounded half-to-even to k decimals. -/
def pyFormat (k : ℕ) (x : Option ℚ) : List Char :=
  match x with
  | none => str "nan"
  | some q => fixedDec (roundHalfEven (q * 10 ^ k)) k

/-- Non-null ratings of the view: pandas reductions over the Rating column
skip NaN cells. -/
def ratings (fv : List AppRecord) : List ℚ := fv.filterMap (fun r => r.Rating)

/-- The avg_rating metric of src/dashboard.py line 180:
pandas Series.mean of the Rating column, which is the mean of the non-null
cells and NaN (here none) when there are no non-null cells. -/
def avg_rating (fv : List AppRecord) : Option ℚ :=
  if ratings fv = [] then none
  else some ((ratings fv).sum / ((ratings fv).length : ℚ))

/-- The rendered Average Rating metric value of src/dashboard.py line 183:
the f-string applies .2f formatting and appends a space; no empty-view check
is made before formatting. -/
def avg_rating_display (fv : List AppRecord) : List Char :=
  pyFormat 2 (avg_rating fv) ++ [' ']

/-- Number of rows of the view whose Type is Free, the sum of the boolean
column (Type == 'Free') of src/dashboard.py line 195. -/
def free_count (fv : List AppRecord) : ℕ :=
  (fv.filter (fun r => decide (r.Type_ = AppType.Free))).length

/-- The free_percentage metric of src/dashboard.py line 195:
(Type == 'Free').sum() / len(df_filtered) * 100.  On an empty view the
division is numpy 0 / 0, which yields NaN (modelled as none), not an
exception and not 0. -/
def free_percentage (fv : List AppRecord) : Option ℚ :=
  if fv.length = 0 then none
  else some ((free_count fv : ℚ) / (fv.length : ℚ) * 100)

/-- The rendered Free Apps metric value of src/dashboard.py line 198:
.1f formatting followed by a percent sign, with no empty-view check. -/
def free_percentage_display (fv : List AppRecord) : List Char :=
  pyFormat 1 (free_percentage fv) ++ ['%']

/-- First row of the example dataset of spec section 8:
(CatA, Free, rating 4.5, reviews 500). -/
def specRow1 : AppRecord :=
  { App := some (str "AlphaApp"), Category := some (str "CatA"),
    Type_ := AppType.Free, Rating := some (Rat.mk' 9 2), Reviews := some 500,
    Installs_Clean := some 10000, Price_Clean := some 0, Size_MB := some 20,
    sentiment_polarity_mean := some (Rat.mk' 1 5), positive_percentage := some 70,
    negative_percentage := some 10 }

/-- Second row of the example dataset of spec section 8:
(CatA, Paid, rating 3.0, reviews 50). -/
def specRow2 : AppRecord :=
  { App := some (str "BetaApp"), Category := some (str "CatA"),
    Type_ := AppType.Paid, Rating := some 3, Reviews := some 50,
    Installs_Clean := some 500, Price_Clean := some (Rat.mk' 99 100),
    Size_MB := some 5, sentiment_polarity_mean := some 0,
    positive_percentage := some 50, negative_percentage := some 30 }

/-- Third row of the example dataset of spec section 8:
(CatB, Free, rating 4.0, reviews 2000). -/
def specRow3 : AppRecord :=
  { App := some (str "GammaApp"), Category := some (str "CatB"),
    Type_ := AppType.Free, Rating := some 4, Reviews := some 2000,
    Installs_Clean := some 100000, Price_Clean := some 0, Size_MB := some 50,
    sentiment_polarity_mean := some (Rat.mk' 3 10), positive_percentage := some 80,
    negative_percentage := some 5 }

/-- The three-row example dataset of spec section 8. -/
def specDataset : List AppRecord := [specRow1, specRow2, specRow3]

/-- The criteria of the spec section 8 empty-view example: no category or
type narrowing, min rating 0, min reviews 10000. -/
def emptyViewCriteria : FilterCriteria :=
  { selected_category := none, selected_type := none, min_rating := 0,
    min_reviews := 10000 }

/-- Claim C1 counterexample: on the spec section 8 dataset with
min_reviews = 10000 the filtered view is empty, and the rendered Average
Rating metric is the formatted NaN text nan followed by a space — the NaN
propagates silently into the rendered metric — not the placeholder text
undefined; likewise the Free Apps metric renders as nan%. -/
theorem avg_rating_empty_counterexample :
    df_filtered specDataset emptyViewCriteria = [] ∧
    avg_rating_display (df_filtered specDataset emptyViewCriteria) = str "nan " ∧
    free_percentage_display (df_filtered specDataset emptyViewCriteria) = str "nan%" ∧
    avg_rating_display (df_filtered specDataset emptyViewCriteria) ≠ str "undefined" := by
  refine ⟨by decide, ?_, ?_, ?_⟩ <;> decide

/-- Claim C1 (amended): whenever the filtered view is empty, avg_rating is
NaN (pandas mean of an empty column), free_percentage is NaN (numpy division
0 / 0), and both metrics render as formatted NaN text (nan and nan%); no
explicit undefined / no-data placeholder is produced. -/
theorem empty_view_metrics_nan (df : List AppRecord) (c : FilterCriteria)
    (h : df_filtered df c = []) :
    avg_rating (df_filtered df c) = none ∧
    free_percentage (df_filtered df c) = none ∧
    avg_rating_display (df_filtered df c) = str "nan " ∧
    free_percentage_display (df_filtered df c) = str "nan%" := by
  rw [h]
  exact ⟨rfl, rfl, rfl, rfl⟩

/-- Witness for the amended claim C1 theorem at the spec section 8
empty-view example. -/
theorem empty_view_metrics_nan_witness :
    df_filtered specDataset emptyViewCriteria = [] ∧
    (avg_rating (df_filtered specDataset emptyViewCriteria) = none ∧
     free_percentage (df_filtered specDataset emptyViewCriteria) = none ∧
     avg_rating_display (df_filtered specDataset emptyViewCriteria) = str "nan " ∧
     free_percentage_display (df_filtered specDataset emptyViewCriteria) = str "nan%") :=
  ⟨by decide, empty_view_metrics_nan specDataset emptyViewCriteria (by decide)⟩

/-- The loosest criteria: no narrowing, min rating 0, min reviews 0. -/
def looseCriteria : FilterCriteria :=
  { selected_category := none, selected_type := none, min_rating := 0,
    min_reviews := 0 }

/-- Witness for the claim C3 theorem: raising min reviews from 0 to 10000 on
the spec example dataset does not increase the filtered view size. -/
theorem df_filtered_monotone_witness :
    TightensOne looseCriteria emptyViewCriteria ∧
    (df_filtered specDataset emptyViewCriteria).length ≤
      (df_filtered specDataset looseCriteria).length :=
  ⟨Or.inr (Or.inl ⟨rfl, rfl, rfl, by decide⟩),
    df_filtered_monotone specDataset looseCriteria emptyViewCriteria
      (Or.inr (Or.inl ⟨rfl, rfl, rfl, by decide⟩))⟩

/-- A row with a missing (NaN) Rating cell. -/
def rowNoRating : AppRecord :=
  { App := some (str "NoRatingApp"), Category := some (str "CatA"),
    Type_ := AppType.Free, Rating := none, Reviews := some 10,
    Installs_Clean := some 100, Price_Clean := some 0, Size_MB := some 1,
    sentiment_polarity_mean := some 0, positive_percentage := some 50,
    negative_percentage := some 50 }

/-- Witness for the claim C4 theorem: the row with missing Rating is excluded
from the filtered view even under the loosest thresholds. -/
theorem missing_excluded_witness :
    (rowNoRating.Rating = none ∨ rowNoRating.Reviews = none) ∧
    rowNoRating ∉ df_filtered [rowNoRating] looseCriteria :=
  ⟨Or.inl rfl, missing_excluded [rowNoRating] looseCriteria rowNoRating
    (Or.inl rfl)⟩

/-- Selection step of pandas DataFrame.sample: from the remaining rows,
the generator output s 0 selects the next row (the draw is taken modulo the
number of remaining rows, so every remaining row is selectable); the
selected row is removed and sampling continues with the rest of the
generator stream.  The first argument is the number of rows still to draw. -/
def sampleGo : ℕ → List AppRecord → (ℕ → ℕ) → List AppRecord
  | 0, _, _ => []
  | _ + 1, [], _ => []
  | k + 1, a :: l, s =>
      (a :: l).get ⟨s 0 % (a :: l).length, Nat.mod_lt _ (Nat.succ_pos _)⟩ ::
        sampleGo k ((a :: l).eraseIdx (s 0 % (a :: l).length))
          (fun n => s (n + 1))

/-- The scatter-chart input sample_df of src/dashboard.py line 314:
df_filtered.sample(min(1000, len(df_filtered))).  Pandas DataFrame.sample
with no random_state draws without replacement from the global NumPy random
generator; the generator's draws are modelled as the explicit stream s, so
the hidden random state becomes a visible extra input. -/
def sample_df (fv : List AppRecord) (s : ℕ → ℕ) : List AppRecord :=
  sampleGo (min 1000 fv.length) fv s

lemma get_cons_eraseIdx_perm (l : List AppRecord) (i : ℕ) (h : i < l.length) :
    List.Perm (l.get ⟨i, h⟩ :: l.eraseIdx i) l := by
  induction l generalizing i with
  | nil => simp at h
  | cons a t ih =>
      cases i with
      | zero => exact List.Perm.refl _
      | succ i =>
          have hi : i < t.length := by simpa using h
          have step := ih i hi
          refine List.Perm.trans
            (List.Perm.swap a (t.get ⟨i, hi⟩) (t.eraseIdx i)) ?_
          exact List.Perm.cons a step

lemma sampleGo_perm (k : ℕ) : ∀ (l : List AppRecord) (s : ℕ → ℕ),
    l.length = k → List.Perm (sampleGo k l s) l := by
  induction k with
  | zero =>
      intro l s hl
      rw [List.length_eq_zero.mp hl]
      exact List.Perm.refl _
  | succ k ih =>
      intro l s hl
      cases l with
      | nil => simp at hl
      | cons a t =>
          rw [sampleGo]
          have hlt : s 0 % (a :: t).length < (a :: t).length :=
            Nat.mod_lt _ (Nat.succ_pos _)
          have hlen : ((a :: t).eraseIdx (s 0 % (a :: t).length)).length = k := by
            rw [List.length_eraseIdx_of_lt hlt]
            simpa using hl
          refine List.Perm.trans
            (List.Perm.cons _ (ih _ (fun n => s (n + 1)) hlen)) ?_
          exact get_cons_eraseIdx_perm (a :: t) _ hlt

/-- A random-generator stream that always draws 0. -/
def seedZero : ℕ → ℕ := fun _ => 0

/-- A random-generator stream that always draws 1. -/
def seedOne : ℕ → ℕ := fun _ => 1

/-- Claim C5 counterexample: sample_df is not a function of the filtered
view alone.  On a two-row view, two states of the random generator produce
two different results (the two orders of the rows), so re-evaluating the
scatter input on the same FilteredView need not give identical results. -/
theorem sample_df_not_deterministic :
    sample_df [specRow1, specRow2] seedZero ≠ sample_df [specRow1, specRow2] seedOne := by
  decide

/-- Claim C5 (amended): every aggregation of the dashboard is a pure
function of its inputs once the random generator stream is made explicit,
and for the one randomized input — the scatter sample — the randomness only
permutes: whenever the view has at most 1000 rows (so min(1000, len) = len),
sample_df returns exactly the rows of the filtered view, as a permutation
determined by the generator state. -/
theorem sample_df_perm (fv : List AppRecord) (s : ℕ → ℕ)
    (h : fv.length ≤ 1000) : List.Perm (sample_df fv s) fv := by
  rw [sample_df, min_eq_right h]
  exact sampleGo_perm fv.length fv s rfl

/-- Witness for the amended claim C5 theorem on a two-row view. -/
theorem sample_df_perm_witness :
    ([specRow1, specRow2] : List AppRecord).length ≤ 1000 ∧
    List.Perm (sample_df [specRow1, specRow2] seedOne) [specRow1, specRow2] :=
  ⟨by decide, sample_df_perm [specRow1, specRow2] seedOne (by decide)⟩

/-- Number of rows of the view whose Type is Paid. -/
def paid_count (fv : List AppRecord) : ℕ :=
  (fv.filter (fun r => decide (r.Type_ = AppType.Paid))).length

/-- Modelled from the spec: paidPercentage, the counterpart of
free_percentage defined analogously for Type = Paid (spec section 8 names it
paidPercentage; src/dashboard.py computes only free_percentage). -/
def paid_percentage (fv : List AppRecord) : Option ℚ :=
  if fv.length = 0 then none
  else some ((paid_count fv : ℚ) / (fv.length : ℚ) * 100)

lemma free_add_paid (fv : List AppRecord) :
    free_count fv + paid_count fv = fv.length := by
  induction fv with
  | nil => rfl
  | cons r t ih =>
      unfold free_count paid_count at ih ⊢
      cases hr : r.Type_ <;>
        simp [List.filter_cons, hr] <;> omega

/-- Claim C7: on every non-empty filtered view, free_percentage and
paid_percentage are defined and sum to exactly 100 (every row is Free or
Paid, and the two percentages are complementary shares of the row count). -/
theorem free_plus_paid_100 (fv : List AppRecord) (h : fv ≠ []) :
    ∃ p q : ℚ, free_percentage fv = some p ∧ paid_percentage fv = some q ∧
      p + q = 100 := by
  have hlen : fv.length ≠ 0 := fun hc => h (List.length_eq_zero.mp hc)
  refine ⟨(free_count fv : ℚ) / (fv.length : ℚ) * 100,
    (paid_count fv : ℚ) / (fv.length : ℚ) * 100, ?_, ?_, ?_⟩
  · rw [free_percentage, if_neg hlen]
  · rw [paid_percentage, if_neg hlen]
  · have hn : ((fv.length : ℚ)) ≠ 0 := by exact_mod_cast hlen
    have hcast : ((free_count fv : ℚ)) + (paid_count fv : ℚ) = (fv.length : ℚ) := by
      exact_mod_cast congrArg (fun n : ℕ => (n : ℚ)) (free_add_paid fv)
    field_simp
    linarith [hcast]

/-- Witness for the claim C7 theorem on a one-row view. -/
theorem free_plus_paid_100_witness :
    ([specRow1] : List AppRecord) ≠ [] ∧
    (∃ p q : ℚ, free_percentage [specRow1] = some p ∧
      paid_percentage [specRow1] = some q ∧ p + q = 100) :=
  ⟨by simp, free_plus_paid_100 [specRow1] (by simp)⟩

/-- Interval lookup of pandas.cut with an explicit ascending bin-edge list:
the value x falls in the i-th left-open right-closed interval
(edge i, edge (i+1)]; values on or below the lowest edge and values above
the highest edge fall in no interval (pandas.cut marks them NaN). -/
def cutBins : List ℚ → ℚ → Option ℕ
  | b0 :: b1 :: rest, x =>
      if b0 < x ∧ x ≤ b1 then some 0
      else (cutBins (b1 :: rest) x).map (fun i => i + 1)
  | _, _ => none

/-- The bin edges of the Price vs Rating chart of src/dashboard.py line 444:
pd.cut(df_filtered['Price_Clean'], bins=[0, 0.01, 2, 5, 10, 100]). -/
def priceBins : List ℚ := [0, Rat.mk' 1 100, 2, 5, 10, 100]

/-- The price bucket of a row: NaN prices fall in no bucket. -/
def priceBucket (r : AppRecord) : Option ℕ :=
  r.Price_Clean.bind (cutBins priceBins)

/-- The rows of the view grouped into price bucket i by the chart of
src/dashboard.py line 444; bucket 0 is the bar labeled Free. -/
def bucketRows (fv : List AppRecord) (i : ℕ) : List AppRecord :=
  fv.filter (fun r => decide (priceBucket r = some i))

/-- The per-bucket mean rating of the Price vs Rating chart of
src/dashboard.py line 444 (pandas groupby mean: NaN on an empty bucket). -/
def price_rating (fv : List AppRecord) (i : ℕ) : Option ℚ :=
  avg_rating (bucketRows fv i)

/-- Claim C10: the price bucketization does not cover all prices — a price
of exactly 0 falls in no bucket, a price above 100 falls in no bucket, and
bucket 0 (the bar labeled Free) holds exactly the rows with
0 < price <= 0.01, never the rows with price 0. -/
theorem price_bucket_gaps :
    (∀ x : ℚ, x = 0 → cutBins priceBins x = none) ∧
    (∀ x : ℚ, 100 < x → cutBins priceBins x = none) ∧
    (∀ x : ℚ, cutBins priceBins x = some 0 ↔ 0 < x ∧ x ≤ Rat.mk' 1 100) ∧
    (∀ (fv : List AppRecord) (r : AppRecord), r ∈ bucketRows fv 0 ↔
      r ∈ fv ∧ ∃ p : ℚ, r.Price_Clean = some p ∧ 0 < p ∧ p ≤ Rat.mk' 1 100) := by
  have hb1 : (Rat.mk' 1 100 : ℚ) ≤ 100 := by decide
  have hb2 : (2 : ℚ) ≤ 100 := by norm_num
  have hb3 : (5 : ℚ) ≤ 100 := by norm_num
  have hb4 : (10 : ℚ) ≤ 100 := by norm_num
  have hzero : ∀ x : ℚ, x = 0 → cutBins priceBins x = none := by
    intro x hx
    subst hx
    decide
  have hbig : ∀ x : ℚ, 100 < x → cutBins priceBins x = none := by
    intro x hx
    simp only [priceBins, cutBins]
    split_ifs with h1 h2 h3 h4 h5 <;>
      first
        | (exfalso; rcases ‹_ ∧ _› with ⟨_, hle⟩; linarith)
        | rfl
  have hiff : ∀ x : ℚ, cutBins priceBins x = some 0 ↔ 0 < x ∧ x ≤ Rat.mk' 1 100 := by
    intro x
    simp only [priceBins, cutBins]
    constructor
    · intro h
      split_ifs at h with h1 h2 h3 h4 h5
      · exact h1
      all_goals simp at h
    · intro h
      rw [if_pos h]
  refine ⟨hzero, hbig, hiff, ?_⟩
  intro fv r
  rw [bucketRows, List.mem_filter, decide_eq_true_eq]
  constructor
  · rintro ⟨hmem, hbk⟩
    refine ⟨hmem, ?_⟩
    cases hp : r.Price_Clean with
    | none => rw [priceBucket, hp] at hbk; simp at hbk
    | some p =>
        rw [priceBucket, hp] at hbk
        exact ⟨p, rfl, (hiff p).mp hbk⟩
  · rintro ⟨hmem, p, hp, hcond⟩
    exact ⟨hmem, by rw [priceBucket, hp]; exact (hiff p).mpr hcond⟩

/-- Witness for the claim C10 theorem: price 0 and price 101 fall in no
bucket, price 0.005 falls in bucket 0, and the price-0 row specRow1 is not
in the Free bar of its own one-row view. -/
theorem price_bucket_gaps_witness :
    cutBins priceBins 0 = none ∧
    cutBins priceBins 101 = none ∧
    cutBins priceBins (Rat.mk' 1 200) = some 0 ∧
    specRow1 ∉ bucketRows [specRow1] 0 := by
  refine ⟨price_bucket_gaps.1 0 rfl, price_bucket_gaps.2.1 101 (by norm_num),
    (price_bucket_gaps.2.2.1 (Rat.mk' 1 200)).mpr ⟨by decide, by decide⟩, ?_⟩
  intro hmem
  obtain ⟨_, p, hp, hpos, _⟩ :=
    (price_bucket_gaps.2.2.2 [specRow1] specRow1).mp hmem
  have : p = 0 := by
    have : specRow1.Price_Clean = some 0 := rfl
    rw [this] at hp
    exact (Option.some.injEq _ _).mp hp.symm
  subst this
  exact lt_irrefl 0 hpos

/-- Insert an element into a sorted list (auxiliary step of sortBy). -/
def insertSorted {α : Type} (le : α → α → Bool) (a : α) : List α → List α
  | [] => [a]
  | b :: t => if le a b then a :: b :: t else b :: insertSorted le a t

/-- Stable insertion sort.  Pandas sorts groupby keys and sort_values
output; for the properties proved here only the multiset of entries matters,
so the sorting algorithm is modelled by any stable comparison sort. -/
def sortBy {α : Type} (le : α → α → Bool) : List α → List α
  | [] => []
  | a :: t => insertSorted le a (sortBy le t)

lemma insertSorted_perm {α : Type} (le : α → α → Bool) (a : α) (l : List α) :
    List.Perm (insertSorted le a l) (a :: l) := by
  induction l with
  | nil => exact List.Perm.refl _
  | cons b t ih =>
      rw [insertSorted]
      by_cases hle : le a b = true
      · rw [if_pos hle]
      · rw [if_neg hle]
        exact List.Perm.trans (List.Perm.cons b ih) (List.Perm.swap a b t)

lemma sortBy_perm {α : Type} (le : α → α → Bool) (l : List α) :
    List.Perm (sortBy le l) l := by
  induction l with
  | nil => exact List.Perm.refl _
  | cons a t ih =>
      exact List.Perm.trans (insertSorted_perm le a (sortBy le t))
        (List.Perm.cons a ih)

/-- Lexicographic comparison of category names (pandas sorts groupby keys
in ascending order). -/
def lexLe : List Char → List Char → Bool
  | [], _ => true
  | _ :: _, [] => false
  | a :: as, b :: bs => if a < b then true else if b < a then false else lexLe as bs

/-- The groupby keys of src/dashboard.py line 261: the distinct non-null
categories of the view (pandas groupby drops NaN keys and sorts the rest). -/
def catKeys (fv : List AppRecord) : List (List Char) :=
  sortBy lexLe (fv.filterMap (fun r => r.Category)).dedup

/-- The rows of one category group. -/
def groupRows (fv : List AppRecord) (cat : List Char) : List AppRecord :=
  fv.filter (fun r => decide (r.Category = some cat))

/-- The App Count aggregate of src/dashboard.py line 262: pandas
agg 'App': 'count' counts the non-null App cells of the group. -/
def appCount (rows : List AppRecord) : ℕ :=
  (rows.filterMap (fun r => r.App)).length

/-- Pandas round(2): round half to even at two decimals. -/
def round2 (q : ℚ) : ℚ := (roundHalfEven (q * 100) : ℚ) / 100

/-- One row of the Category Performance Summary table of src/dashboard.py
lines 261-268: app count, mean rating (rounded to 2 decimals, NaN when the
group has no non-null rating), total reviews, total installs. -/
structure CategorySummaryRow where
  category : List Char
  appCount : ℕ
  avgRating : Option ℚ
  totalReviews : ℕ
  totalInstalls : ℕ
deriving DecidableEq

/-- The aggregates of one category group (src/dashboard.py lines 261-266). -/
def catSummaryRow (fv : List AppRecord) (cat : List Char) : CategorySummaryRow :=
  { category := cat,
    appCount := appCount (groupRows fv cat),
    avgRating := (avg_rating (groupRows fv cat)).map round2,
    totalReviews := ((groupRows fv cat).filterMap (fun r => r.Reviews)).sum,
    totalInstalls := ((groupRows fv cat).filterMap (fun r => r.Installs_Clean)).sum }

/-- The category_summary table of src/dashboard.py lines 261-269: one row
per distinct non-null category, sorted by App Count descending. -/
def category_summary (fv : List AppRecord) : List CategorySummaryRow :=
  sortBy (fun a b => decide (b.appCount ≤ a.appCount))
    ((catKeys fv).map (catSummaryRow fv))

/-- Sum of the App Count column of the summary table. -/
def sumAppCounts (s : List CategorySummaryRow) : ℕ :=
  (s.map (fun e => e.appCount)).sum

lemma length_filter_split (l : List AppRecord) (p q : AppRecord → Bool) :
    (l.filter p).length =
      (l.filter (fun a => p a && q a)).length +
        (l.filter (fun a => p a && !q a)).length := by
  induction l with
  | nil => rfl
  | cons a t ih =>
      simp only [List.filter_cons]
      cases hp : p a <;> cases hq : q a <;>
        simp [hp, hq, List.length_cons, ih] <;> omega

lemma length_filterMap_app (rows : List AppRecord) :
    (rows.filterMap (fun r => r.App)).length =
      (rows.filter (fun r => r.App.isSome)).length := by
  induction rows with
  | nil => rfl
  | cons r t ih =>
      cases h : r.App <;>
        simp [List.filterMap_cons, List.filter_cons, h, ih]

lemma sum_group_counts (rows : List AppRecord) (P : AppRecord → Bool) :
    ∀ cs : List (List Char), cs.Nodup →
    ((cs.map (fun c =>
        (rows.filter (fun r => decide (r.Category = some c) && P r)).length)).sum)
      = (rows.filter
          (fun r => (r.Category.any (fun c => decide (c ∈ cs))) && P r)).length := by
  intro cs
  induction cs with
  | nil =>
      intro _
      simp only [List.map_nil, List.sum_nil]
      have hall : ∀ r ∈ rows,
          ((r.Category.any (fun c => decide (c ∈ ([] : List (List Char))))) && P r)
            = false := by
        intro r _
        cases r.Category <;> simp [Option.any]
      rw [List.filter_congr hall]
      simp
  | cons c cs ih =>
      intro hnd
      have hc : c ∉ cs := (List.nodup_cons.mp hnd).1
      have hcs : cs.Nodup := (List.nodup_cons.mp hnd).2
      simp only [List.map_cons, List.sum_cons]
      rw [ih hcs,
        length_filter_split rows
          (fun r => (r.Category.any (fun c' => decide (c' ∈ c :: cs))) && P r)
          (fun r => decide (r.Category = some c))]
      congr 1
      · apply congrArg List.length
        apply List.filter_congr
        intro r _
        cases hcat : r.Category with
        | none => simp [Option.any]
        | some c' =>
            by_cases hc' : c' = c
            · subst hc'
              simp [Option.any, List.mem_cons]
            · simp [Option.any, hc']
      · apply congrArg List.length
        apply List.filter_congr
        intro r _
        cases hcat : r.Category with
        | none => simp [Option.any]
        | some c' =>
            by_cases hc' : c' = c
            · subst hc'
              simp [Option.any, hc]
            · simp [Option.any, List.mem_cons, hc']

/-- Claim C6 (amended): the App Count column of the category summary sums
not to the row count of the view but to the number of rows having both a
non-null Category and a non-null App: pandas groupby drops rows with NaN
Category, and the count aggregate skips NaN App cells. -/
theorem category_counts_sum (fv : List AppRecord) :
    sumAppCounts (category_summary fv) =
      (fv.filter (fun r => r.Category.isSome && r.App.isSome)).length := by
  have hperm := sortBy_perm (fun a b => decide (b.appCount ≤ a.appCount))
    ((catKeys fv).map (catSummaryRow fv))
  unfold sumAppCounts category_summary
  rw [List.Perm.sum_eq (hperm.map (fun e => e.appCount)), List.map_map]
  have hnd : (catKeys fv).Nodup :=
    (sortBy_perm lexLe _).symm.nodup
      (List.nodup_dedup (fv.filterMap (fun r => r.Category)))
  have hkey : ∀ cat ∈ catKeys fv,
      ((fun e : CategorySummaryRow => e.appCount) ∘ (catSummaryRow fv)) cat
        = (fv.filter (fun r => decide (r.Category = some cat) && r.App.isSome)).length := by
    intro cat _
    simp only [Function.comp, catSummaryRow]
    rw [appCount, length_filterMap_app, groupRows, List.filter_filter]
    apply congrArg List.length
    apply List.filter_congr
    intro r _
    rw [Bool.and_comm]
  rw [List.map_congr_left hkey,
    sum_group_counts fv (fun r => r.App.isSome) (catKeys fv) hnd]
  apply congrArg List.length
  apply List.filter_congr
  intro r hr
  cases hcat : r.Category with
  | none => simp [Option.any]
  | some c =>
      have hmem : c ∈ catKeys fv := by
        unfold catKeys
        rw [List.Perm.mem_iff (sortBy_perm lexLe _), List.mem_dedup]
        exact List.mem_filterMap.mpr ⟨r, hr, by rw [hcat]⟩
      simp [Option.any, hmem]

/-- A row with a missing (NaN) Category cell but a present App name. -/
def rowNoCat : AppRecord :=
  { App := some (str "OrphanApp"), Category := none,
    Type_ := AppType.Free, Rating := some 4, Reviews := some 10,
    Installs_Clean := some 100, Price_Clean := some 0, Size_MB := some 1,
    sentiment_polarity_mean := some 0, positive_percentage := some 50,
    negative_percentage := some 50 }

/-- Claim C6 counterexample: on a one-row view whose row has a NaN
Category, the category summary is empty, so its App Count column sums to 0
while the view has 1 row — the groupby counts do not sum to count() of the
view. -/
theorem category_counts_counterexample :
    sumAppCounts (category_summary [rowNoCat]) ≠ ([rowNoCat] : List AppRecord).length := by
  decide

/-- Case-insensitive character comparison (ASCII folding), the effect of
case=False, which compiles the pattern with re.IGNORECASE. -/
def ciEq (a b : Char) : Bool := decide (a.toLower = b.toLower)

/-- Anchored regex match for the modelled regex fragment: a pattern of
literal characters and the dot wildcard matches at the head of the text,
dot matching any single character and literals matching case-insensitively.
This models Python re semantics restricted to patterns built from literals
and the dot metacharacter. -/
def reMatchAt : List Char → List Char → Bool
  | [], _ => true
  | _ :: _, [] => false
  | c :: p, x :: s => (decide (c = '.') || ciEq c x) && reMatchAt p s

/-- re.search containment: the pattern matches at some position of the
text. -/
def reSearch (p : List Char) : List Char → Bool
  | [] => reMatchAt p []
  | x :: t => reMatchAt p (x :: t) || reSearch p t

/-- The app-name search of src/dashboard.py line 524:
df_filtered['App'].str.contains(search_query, case=False, na=False).
Pandas str.contains interprets the query as a regular expression (the
default regex=True), searched case-insensitively; na=False makes rows with
a NaN App name yield False. -/
def search_results (fv : List AppRecord) (q : List Char) : List AppRecord :=
  fv.filter (fun r =>
    match r.App with
    | none => false
    | some s => reSearch q s)

/-- Anchored case-insensitive literal match (no wildcard). -/
def ciAtFront : List Char → List Char → Bool
  | [], _ => true
  | _ :: _, [] => false
  | c :: p, x :: s => ciEq c x && ciAtFront p s

/-- Case-insensitive literal substring containment. -/
def ciContains (p : List Char) : List Char → Bool
  | [] => ciAtFront p []
  | x :: t => ciAtFront p (x :: t) || ciContains p t

/-- The search described by the spec (stated for comparison with the
implemented search_results): exactly the rows whose present App name
contains the query as a case-insensitive literal substring. -/
def literal_search (fv : List AppRecord) (q : List Char) : List AppRecord :=
  fv.filter (fun r =>
    match r.App with
    | none => false
    | some s => ciContains q s)

/-- The regular-expression metacharacters of Python re. -/
def reMeta : List Char :=
  ['.', '^', '$', '*', '+', '?', '\x7b', '\x7d', '[', ']', '\\', '|', '(', ')']

/-- Claim C8 counterexample: with query "." the search returns the row
named AlphaApp although "." is not a literal substring of that name (the
query is interpreted as a regular expression, the dot matching any
character), so the search differs from literal substring search. -/
theorem search_regex_counterexample :
    search_results [specRow1] ['.'] ≠ literal_search [specRow1] ['.'] ∧
    specRow1 ∈ search_results [specRow1] ['.'] ∧
    ciContains ['.'] (str "AlphaApp") = false := by
  refine ⟨by decide, by decide, by decide⟩

lemma reMatchAt_eq_ciAtFront (p : List Char) (hp : '.' ∉ p) :
    ∀ s : List Char, reMatchAt p s = ciAtFront p s := by
  induction p with
  | nil => intro s; cases s <;> rfl
  | cons c p ih =>
      intro s
      have hc : c ≠ '.' := fun hcon => hp (hcon ▸ List.mem_cons_self c p)
      have hp' : '.' ∉ p := fun hcon => hp (List.mem_cons_of_mem c hcon)
      cases s with
      | nil => rfl
      | cons x t =>
          rw [reMatchAt, ciAtFront, ih hp' t]
          have : decide (c = '.') = false := by
            simp [hc]
          rw [this, Bool.false_or]

lemma reSearch_eq_ciContains (p : List Char) (hp : '.' ∉ p) (s : List Char) :
    reSearch p s = ciContains p s := by
  induction s with
  | nil => rw [reSearch, ciContains, reMatchAt_eq_ciAtFront p hp]
  | cons x t ih =>
      rw [reSearch, ciContains, reMatchAt_eq_ciAtFront p hp, ih]

/-- Claim C8 (amended): the search treats the query as a case-insensitive
regular expression over present App names (NaN names never match); only for
queries containing no regex metacharacter does it coincide with literal
case-insensitive substring search. -/
theorem search_eq_literal (fv : List AppRecord) (q : List Char)
    (h : ∀ c ∈ q, c ∉ reMeta) :
    search_results fv q = literal_search fv q ∧
    ∀ r ∈ search_results fv q, r.App ≠ none := by
  have hdot : '.' ∉ q := fun hcon =>
    h '.' hcon (List.mem_cons_self _ _)
  constructor
  · unfold search_results literal_search
    apply List.filter_congr
    intro r _
    cases hr : r.App with
    | none => rfl
    | some s => exact reSearch_eq_ciContains q hdot s
  · intro r hr hnone
    have := (List.mem_filter.mp hr).2
    rw [hnone] at this
    simp at this

/-- Witness for the amended claim C8 theorem: the metacharacter-free query
alpha searched over a one-row view. -/
theorem search_eq_literal_witness :
    (∀ c ∈ str "alpha", c ∉ reMeta) ∧
    (search_results [specRow1] (str "alpha") = literal_search [specRow1] (str "alpha") ∧
     ∀ r ∈ search_results [specRow1] (str "alpha"), r.App ≠ none) :=
  ⟨by decide, search_eq_literal [specRow1] (str "alpha") (by decide)⟩

/-- The characters that force CSV quoting (pandas to_csv QUOTE_MINIMAL):
the separator, the quote char, and line terminators. -/
def special (c : Char) : Bool :=
  decide (c = ',') || decide (c = '"') || decide (c = '\n') || decide (c = '\r')

/-- Does a field text need quoting in the CSV output? -/
def needsQuote (s : List Char) : Bool := s.any special

/-- CSV quote escaping: each quote character is doubled. -/
def escQuotes : List Char → List Char
  | [] => []
  | c :: t => if c = '"' then '"' :: '"' :: escQuotes t else c :: escQuotes t

/-- One encoded CSV field: quoted (with doubled inner quotes) when the text
contains a special character, the bare text otherwise. -/
def encField (s : List Char) : List Char :=
  if needsQuote s then '"' :: escQuotes s ++ ['"'] else s

/-- Encoded cell of a string column: a NaN cell is written as an empty
field (pandas to_csv default na_rep). -/
def cellOfStr : Option (List Char) → List Char
  | none => []
  | some s => encField s

/-- Encoded cell of a float column: NaN empty, a number as its exact
decimal text. -/
def cellOfQ : Option ℚ → List Char
  | none => []
  | some q => ratDec q

/-- Encoded cell of an integer-valued column: NaN empty, a number as its
decimal text. -/
def cellOfN : Option ℕ → List Char
  | none => []
  | some n => natDec n

/-- Encoded cell of the Type column. -/
def cellOfType : AppType → List Char
  | AppType.Free => str "Free"
  | AppType.Paid => str "Paid"

/-- The header names of the exported table, in column order (the schema of
FilteredView, spec section 6). -/
def headerCells : List (List Char) :=
  [str "App", str "Category", str "Type", str "Rating", str "Reviews",
   str "Installs_Clean", str "Price_Clean", str "Size_MB",
   str "sentiment_polarity_mean", str "positive_percentage",
   str "negative_percentage"]

/-- The encoded cells of one exported row. -/
def rowCells (r : AppRecord) : List (List Char) :=
  [cellOfStr r.App, cellOfStr r.Category, cellOfType r.Type_,
   cellOfQ r.Rating, cellOfN r.Reviews, cellOfN r.Installs_Clean,
   cellOfQ r.Price_Clean, cellOfQ r.Size_MB,
   cellOfQ r.sentiment_polarity_mean, cellOfQ r.positive_percentage,
   cellOfQ r.negative_percentage]

/-- Comma-join of encoded fields into one CSV record. -/
def joinComma : List (List Char) → List Char
  | [] => []
  | [c] => c
  | c :: c2 :: cs => c ++ ',' :: joinComma (c2 :: cs)

/-- The CSV export of src/dashboard.py line 537:
df_filtered.to_csv(index=False) — the header record followed by one record
per row, fields comma-separated, records newline-terminated, fields quoted
exactly when they contain a special character. -/
def to_csv (fv : List AppRecord) : List Char :=
  joinComma headerCells ++ '\n' ::
    (fv.map (fun r => joinComma (rowCells r) ++ ['\n'])).flatten

/-- Scanner state of the CSV reader: at a field start, inside an unquoted
field, inside a quoted field, or just after a quote inside a quoted
field. -/
inductive CsvMode where
  | fieldStart : CsvMode
  | unquoted : CsvMode
  | quoted : CsvMode
  | afterQuote : CsvMode
deriving DecidableEq

/-- Single-pass CSV scanner (the tokenizing part of pandas read_csv with
default options): splits the input into records of raw field texts,
honouring quoting, doubled quotes, and Unix newlines, and skipping blank
lines.  Accumulators hold the current field and record reversed and the
completed records reversed; a quote left open at end of input is a parse
error. -/
def csvGo : List Char → CsvMode → List Char → List (List Char) →
    List (List (List Char)) → Option (List (List (List Char)))
  | [], CsvMode.quoted, _, _, _ => none
  | [], CsvMode.fieldStart, fld, rec, out =>
      if fld = [] ∧ rec = [] then some out.reverse
      else some (((fld.reverse :: rec).reverse) :: out).reverse
  | [], _, fld, rec, out => some (((fld.reverse :: rec).reverse) :: out).reverse
  | c :: rest, CsvMode.fieldStart, fld, rec, out =>
      if c = '"' then csvGo rest CsvMode.quoted [] rec out
      else if c = ',' then csvGo rest CsvMode.fieldStart [] (fld.reverse :: rec) out
      else if c = '\n' then
        if fld = [] ∧ rec = [] then csvGo rest CsvMode.fieldStart [] [] out
        else csvGo rest CsvMode.fieldStart [] [] ((fld.reverse :: rec).reverse :: out)
      else csvGo rest CsvMode.unquoted [c] rec out
  | c :: rest, CsvMode.unquoted, fld, rec, out =>
      if c = ',' then csvGo rest CsvMode.fieldStart [] (fld.reverse :: rec) out
      else if c = '\n' then
        csvGo rest CsvMode.fieldStart [] [] ((fld.reverse :: rec).reverse :: out)
      else csvGo rest CsvMode.unquoted (c :: fld) rec out
  | c :: rest, CsvMode.quoted, fld, rec, out =>
      if c = '"' then csvGo rest CsvMode.afterQuote fld rec out
      else csvGo rest CsvMode.quoted (c :: fld) rec out
  | c :: rest, CsvMode.afterQuote, fld, rec, out =>
      if c = '"' then csvGo rest CsvMode.quoted ('"' :: fld) rec out
      else if c = ',' then csvGo rest CsvMode.fieldStart [] (fld.reverse :: rec) out
      else if c = '\n' then
        csvGo rest CsvMode.fieldStart [] [] ((fld.reverse :: rec).reverse :: out)
      else none

/-- Decoded string cell: pandas read_csv turns an empty field into NaN. -/
def decodeStrCell (cell : List Char) : Option (List Char) :=
  if cell = [] then none else some cell

/-- Decoded Type cell. -/
def decodeTypeCell (cell : List Char) : Option AppType :=
  if cell = str "Free" then some AppType.Free
  else if cell = str "Paid" then some AppType.Paid
  else none

/-- Decoded float cell: empty is NaN, otherwise a plain decimal numeral. -/
def decodeQCell (cell : List Char) : Option (Option ℚ) :=
  if cell = [] then some none else (parseRatDec cell).map some

/-- Decoded integer cell: empty is NaN, otherwise a decimal numeral. -/
def decodeNCell (cell : List Char) : Option (Option ℕ) :=
  if cell = [] then some none else (parseNatDec cell).map some

/-- Decode one scanned record into an AppRecord following the FilteredView
schema (pandas read_csv with the exported header). -/
def decodeRow (cells : List (List Char)) : Option AppRecord :=
  match cells with
  | [a, b, c, d, e, f, g, h, i, j, k] => do
      let t ← decodeTypeCell c
      let rt ← decodeQCell d
      let rv ← decodeNCell e
      let ins ← decodeNCell f
      let pr ← decodeQCell g
      let sz ← decodeQCell h
      let spm ← decodeQCell i
      let pp ← decodeQCell j
      let np2 ← decodeQCell k
      some { App := decodeStrCell a, Category := decodeStrCell b, Type_ := t,
             Rating := rt, Reviews := rv, Installs_Clean := ins,
             Price_Clean := pr, Size_MB := sz, sentiment_polarity_mean := spm,
             positive_percentage := pp, negative_percentage := np2 }
  | _ => none

/-- Decode all scanned data records. -/
def decodeRows : List (List (List Char)) → Option (List AppRecord)
  | [] => some []
  | rec :: rest => do
      let r ← decodeRow rec
      let rs ← decodeRows rest
      some (r :: rs)

/-- Re-parsing the exported CSV text (pandas read_csv of the download):
scan the records, require the exported schema header, and decode the data
rows.  Pandas per-column type inference is modelled schema-directed; see
the round-trip discussion in the claim C9 theorems. -/
def read_csv (cs : List Char) : Option (List AppRecord) :=
  match csvGo cs CsvMode.fieldStart [] [] [] with
  | none => none
  | some [] => none
  | some (hdr :: rows) => if hdr = headerCells then decodeRows rows else none

lemma special_false_elim {c : Char} (h : special c = false) :
    c ≠ ',' ∧ c ≠ '"' ∧ c ≠ '\n' ∧ c ≠ '\r' := by
  simp only [special, Bool.or_eq_false_iff, decide_eq_false_iff_not] at h
  exact ⟨h.1.1.1, h.1.1.2, h.1.2, h.2⟩

lemma csvGo_unquoted_comma (e : List Char) (he : ∀ c ∈ e, special c = false) :
    ∀ (fld : List Char) (rec : List (List Char)) out rest,
    csvGo (e ++ ',' :: rest) CsvMode.unquoted fld rec out
      = csvGo rest CsvMode.fieldStart [] ((fld.reverse ++ e) :: rec) out := by
  induction e with
  | nil =>
      intro fld rec out rest
      simp [csvGo]
  | cons c e ih =>
      intro fld rec out rest
      obtain ⟨h1, _, h3, _⟩ := special_false_elim (he c (List.mem_cons_self c e))
      simp only [List.cons_append, csvGo, if_neg h1, if_neg h3, List.append_eq]
      rw [ih (fun x hx => he x (List.mem_cons_of_mem c hx)) (c :: fld) rec out rest]
      simp [List.append_assoc]

lemma csvGo_unquoted_newline (e : List Char) (he : ∀ c ∈ e, special c = false) :
    ∀ (fld : List Char) (rec : List (List Char)) out rest,
    csvGo (e ++ '\n' :: rest) CsvMode.unquoted fld rec out
      = csvGo rest CsvMode.fieldStart [] []
          (((fld.reverse ++ e) :: rec).reverse :: out) := by
  induction e with
  | nil =>
      intro fld rec out rest
      simp [csvGo]
  | cons c e ih =>
      intro fld rec out rest
      obtain ⟨h1, _, h3, _⟩ := special_false_elim (he c (List.mem_cons_self c e))
      simp only [List.cons_append, csvGo, if_neg h1, if_neg h3, List.append_eq]
      rw [ih (fun x hx => he x (List.mem_cons_of_mem c hx)) (c :: fld) rec out rest]
      simp [List.append_assoc]

lemma csvGo_quoted_consume (s : List Char) :
    ∀ (fld : List Char) (rec : List (List Char)) out rest,
    csvGo (escQuotes s ++ '"' :: rest) CsvMode.quoted fld rec out
      = csvGo rest CsvMode.afterQuote (s.reverse ++ fld) rec out := by
  induction s with
  | nil =>
      intro fld rec out rest
      simp [escQuotes, csvGo]
  | cons c s ih =>
      intro fld rec out rest
      by_cases hq : c = '"'
      · subst hq
        have hshape : escQuotes ('"' :: s) ++ '"' :: rest
            = '"' :: '"' :: (escQuotes s ++ '"' :: rest) := by
          simp [escQuotes]
        rw [hshape]
        have s1 : csvGo ('"' :: '"' :: (escQuotes s ++ '"' :: rest))
              CsvMode.quoted fld rec out
            = csvGo (escQuotes s ++ '"' :: rest) CsvMode.quoted ('"' :: fld)
                rec out := by
          simp [csvGo]
        rw [s1, ih ('"' :: fld) rec out rest]
        simp
      · have hshape : escQuotes (c :: s) ++ '"' :: rest
            = c :: (escQuotes s ++ '"' :: rest) := by
          simp [escQuotes, hq]
        rw [hshape]
        have s1 : csvGo (c :: (escQuotes s ++ '"' :: rest))
              CsvMode.quoted fld rec out
            = csvGo (escQuotes s ++ '"' :: rest) CsvMode.quoted (c :: fld)
                rec out := by
          simp [csvGo, hq]
        rw [s1, ih (c :: fld) rec out rest]
        simp

/-- A decoded cell value together with its encoding behaves correctly under
the scanner: followed by a comma it yields the value and continues the
record; followed by a newline (with at least one earlier cell in the
record) it closes the record. -/
def CellEnc (v e : List Char) : Prop :=
  (∀ (rec : List (List Char)) out rest,
      csvGo (e ++ ',' :: rest) CsvMode.fieldStart [] rec out
        = csvGo rest CsvMode.fieldStart [] (v :: rec) out) ∧
  (∀ (rec : List (List Char)) out rest, rec ≠ [] →
      csvGo (e ++ '\n' :: rest) CsvMode.fieldStart [] rec out
        = csvGo rest CsvMode.fieldStart [] [] ((v :: rec).reverse :: out))

lemma cellEnc_plain (e : List Char) (he : ∀ c ∈ e, special c = false) :
    CellEnc e e := by
  constructor
  · intro rec out rest
    cases e with
    | nil => simp [csvGo]
    | cons c e' =>
        obtain ⟨h1, h2, h3, _⟩ := special_false_elim (he c (List.mem_cons_self c e'))
        simp only [List.cons_append, csvGo, if_neg h1, if_neg h2, if_neg h3,
          List.append_eq]
        rw [csvGo_unquoted_comma e' (fun x hx => he x (List.mem_cons_of_mem c hx))]
        simp
  · intro rec out rest hrec
    cases e with
    | nil => simp [csvGo, hrec]
    | cons c e' =>
        obtain ⟨h1, h2, h3, _⟩ := special_false_elim (he c (List.mem_cons_self c e'))
        simp only [List.cons_append, csvGo, if_neg h1, if_neg h2, if_neg h3,
          List.append_eq]
        rw [csvGo_unquoted_newline e' (fun x hx => he x (List.mem_cons_of_mem c hx))]
        simp

lemma cellEnc_string (s : List Char) : CellEnc s (encField s) := by
  by_cases hq : needsQuote s = true
  · rw [encField, if_pos hq]
    constructor
    · intro rec out rest
      have hsh : ('"' :: escQuotes s ++ ['"']) ++ ',' :: rest
          = '"' :: (escQuotes s ++ '"' :: ',' :: rest) := by
        simp
      rw [hsh]
      simp only [csvGo, if_pos rfl]
      rw [csvGo_quoted_consume s [] rec out (',' :: rest)]
      simp [csvGo]
    · intro rec out rest _
      have hsh : ('"' :: escQuotes s ++ ['"']) ++ '\n' :: rest
          = '"' :: (escQuotes s ++ '"' :: '\n' :: rest) := by
        simp
      rw [hsh]
      simp only [csvGo, if_pos rfl]
      rw [csvGo_quoted_consume s [] rec out ('\n' :: rest)]
      simp [csvGo]
  · rw [encField, if_neg hq]
    refine cellEnc_plain s ?_
    intro c hc
    cases hsp : special c with
    | false => rfl
    | true => exact absurd (List.any_eq_true.mpr ⟨c, hc, hsp⟩) hq

lemma special_of_isDigit {c : Char} (h : isDigit c = true) : special c = false := by
  have h1 : c ≠ ',' := by intro e; subst e; exact absurd h (by decide)
  have h2 : c ≠ '"' := by intro e; subst e; exact absurd h (by decide)
  have h3 : c ≠ '\n' := by intro e; subst e; exact absurd h (by decide)
  have h4 : c ≠ '\r' := by intro e; subst e; exact absurd h (by decide)
  simp [special, h1, h2, h3, h4]

lemma natDec_special (n : ℕ) : ∀ c ∈ natDec n, special c = false :=
  fun c hc => special_of_isDigit (natDec_all_digits n c hc)

lemma padDigits_special (k m : ℕ) : ∀ c ∈ padDigits k m, special c = false := by
  intro c hc
  rcases List.mem_append.mp hc with hc | hc
  · rw [List.eq_of_mem_replicate hc]
    decide
  · exact natDec_special m c hc

lemma fixedDecNN_special (m k : ℕ) : ∀ c ∈ fixedDecNN m k, special c = false := by
  intro c hc
  rw [fixedDecNN] at hc
  by_cases hk : k = 0
  · rw [if_pos hk] at hc
    exact natDec_special m c hc
  · rw [if_neg hk] at hc
    rcases List.mem_append.mp hc with hc | hc
    · exact natDec_special _ c hc
    · rcases List.mem_cons.mp hc with hc | hc
      · subst hc; decide
      · exact padDigits_special _ _ c hc

lemma fixedDec_special (n : ℤ) (k : ℕ) : ∀ c ∈ fixedDec n k, special c = false := by
  intro c hc
  rw [fixedDec] at hc
  by_cases hn : n < 0
  · rw [if_pos hn] at hc
    rcases List.mem_cons.mp hc with hc | hc
    · subst hc; decide
    · exact fixedDecNN_special _ _ c hc
  · rw [if_neg hn] at hc
    exact fixedDecNN_special _ _ c hc

lemma ratDec_special (q : ℚ) : ∀ c ∈ ratDec q, special c = false := by
  intro c hc
  rw [ratDec] at hc
  by_cases hd : (q * 10 ^ decScale q).den = 1
  · rw [if_pos hd] at hc
    exact fixedDec_special _ _ c hc
  · rw [if_neg hd] at hc
    rcases List.mem_cons.mp hc with hc | hc
    · subst hc; decide
    · simp at hc

lemma cellEnc_cellOfStr (x : Option (List Char)) :
    CellEnc (x.getD []) (cellOfStr x) := by
  cases x with
  | none => exact cellEnc_plain [] (by simp)
  | some s => exact cellEnc_string s

lemma cellEnc_cellOfQ (x : Option ℚ) : CellEnc (cellOfQ x) (cellOfQ x) := by
  cases x with
  | none => exact cellEnc_plain [] (by simp)
  | some q => exact cellEnc_plain _ (ratDec_special q)

lemma cellEnc_cellOfN (x : Option ℕ) : CellEnc (cellOfN x) (cellOfN x) := by
  cases x with
  | none => exact cellEnc_plain [] (by simp)
  | some n => exact cellEnc_plain _ (natDec_special n)

lemma cellEnc_cellOfType (t : AppType) :
    CellEnc (cellOfType t) (cellOfType t) := by
  cases t with
  | Free => exact cellEnc_plain _ (by decide)
  | Paid => exact cellEnc_plain _ (by decide)

lemma record_tail (pairs : List (List Char × List Char))
    (h : ∀ p ∈ pairs, CellEnc p.1 p.2) :
    ∀ (rec : List (List Char)) out rest, rec ≠ [] → pairs ≠ [] →
    csvGo (joinComma (pairs.map Prod.snd) ++ '\n' :: rest)
        CsvMode.fieldStart [] rec out
      = csvGo rest CsvMode.fieldStart [] []
          ((rec.reverse ++ pairs.map Prod.fst) :: out) := by
  induction pairs with
  | nil => intro rec out rest _ hne; exact absurd rfl hne
  | cons p pairs ih =>
      intro rec out rest hrec _
      cases pairs with
      | nil =>
          simp only [List.map_cons, List.map_nil, joinComma]
          rw [(h p (List.mem_cons_self p [])).2 rec out rest hrec]
          simp
      | cons p2 ps =>
          have hshape : joinComma ((p :: p2 :: ps).map Prod.snd) ++ '\n' :: rest
              = p.2 ++ ',' ::
                  (joinComma ((p2 :: ps).map Prod.snd) ++ '\n' :: rest) := by
            simp [joinComma]
          rw [hshape, (h p (List.mem_cons_self p _)).1 rec out]
          rw [ih (fun x hx => h x (List.mem_cons_of_mem p hx)) (p.1 :: rec) out
            rest (by simp) (by simp)]
          simp

lemma record_full (pairs : List (List Char × List Char))
    (h : ∀ p ∈ pairs, CellEnc p.1 p.2) (h2 : 2 ≤ pairs.length) :
    ∀ out rest,
    csvGo (joinComma (pairs.map Prod.snd) ++ '\n' :: rest)
        CsvMode.fieldStart [] [] out
      = csvGo rest CsvMode.fieldStart [] [] ((pairs.map Prod.fst) :: out) := by
  intro out rest
  cases pairs with
  | nil => simp at h2
  | cons p pairs =>
      cases pairs with
      | nil => simp at h2
      | cons p2 ps =>
          have hshape : joinComma ((p :: p2 :: ps).map Prod.snd) ++ '\n' :: rest
              = p.2 ++ ',' ::
                  (joinComma ((p2 :: ps).map Prod.snd) ++ '\n' :: rest) := by
            simp [joinComma]
          rw [hshape, (h p (List.mem_cons_self p _)).1 [] out]
          rw [record_tail (p2 :: ps) (fun x hx => h x (List.mem_cons_of_mem p hx))
            [p.1] out rest (by simp) (by simp)]
          simp

/-- The raw field texts the scanner recovers for one exported row: the
unescaped cell contents (a missing string is indistinguishable from an
empty one at this level — both are the empty field). -/
def rawCells (r : AppRecord) : List (List Char) :=
  [r.App.getD [], r.Category.getD [], cellOfType r.Type_,
   cellOfQ r.Rating, cellOfN r.Reviews, cellOfN r.Installs_Clean,
   cellOfQ r.Price_Clean, cellOfQ r.Size_MB,
   cellOfQ r.sentiment_polarity_mean, cellOfQ r.positive_percentage,
   cellOfQ r.negative_percentage]

/-- Decoded-value and encoded-text pairs of one exported row's cells. -/
def rowPairs (r : AppRecord) : List (List Char × List Char) :=
  [(r.App.getD [], cellOfStr r.App),
   (r.Category.getD [], cellOfStr r.Category),
   (cellOfType r.Type_, cellOfType r.Type_),
   (cellOfQ r.Rating, cellOfQ r.Rating),
   (cellOfN r.Reviews, cellOfN r.Reviews),
   (cellOfN r.Installs_Clean, cellOfN r.Installs_Clean),
   (cellOfQ r.Price_Clean, cellOfQ r.Price_Clean),
   (cellOfQ r.Size_MB, cellOfQ r.Size_MB),
   (cellOfQ r.sentiment_polarity_mean, cellOfQ r.sentiment_polarity_mean),
   (cellOfQ r.positive_percentage, cellOfQ r.positive_percentage),
   (cellOfQ r.negative_percentage, cellOfQ r.negative_percentage)]

lemma rowPairs_fst (r : AppRecord) : (rowPairs r).map Prod.fst = rawCells r := rfl

lemma rowPairs_snd (r : AppRecord) : (rowPairs r).map Prod.snd = rowCells r := rfl

lemma rowPairs_cellEnc (r : AppRecord) :
    ∀ p ∈ rowPairs r, CellEnc p.1 p.2 := by
  intro p hp
  simp only [rowPairs, List.mem_cons, List.not_mem_nil, or_false] at hp
  rcases hp with rfl | rfl | rfl | rfl | rfl | rfl | rfl | rfl | rfl | rfl | rfl
  · exact cellEnc_cellOfStr r.App
  · exact cellEnc_cellOfStr r.Category
  · exact cellEnc_cellOfType r.Type_
  · exact cellEnc_cellOfQ r.Rating
  · exact cellEnc_cellOfN r.Reviews
  · exact cellEnc_cellOfN r.Installs_Clean
  · exact cellEnc_cellOfQ r.Price_Clean
  · exact cellEnc_cellOfQ r.Size_MB
  · exact cellEnc_cellOfQ r.sentiment_polarity_mean
  · exact cellEnc_cellOfQ r.positive_percentage
  · exact cellEnc_cellOfQ r.negative_percentage

/-- Value-encoding pairs of the header record (names need no quoting). -/
def headerPairs : List (List Char × List Char) :=
  headerCells.map (fun e => (e, e))

lemma headerPairs_fst : headerPairs.map Prod.fst = headerCells := rfl

lemma headerPairs_snd : headerPairs.map Prod.snd = headerCells := rfl

lemma headerPairs_cellEnc : ∀ p ∈ headerPairs, CellEnc p.1 p.2 := by
  intro p hp
  simp only [headerPairs, headerCells, List.map_cons, List.map_nil,
    List.mem_cons, List.not_mem_nil, or_false] at hp
  rcases hp with rfl | rfl | rfl | rfl | rfl | rfl | rfl | rfl | rfl | rfl | rfl <;>
    exact cellEnc_plain _ (by decide)

lemma body_scan (fv : List AppRecord) : ∀ out,
    csvGo ((fv.map (fun r => joinComma (rowCells r) ++ ['\n'])).flatten)
        CsvMode.fieldStart [] [] out
      = some (out.reverse ++ fv.map rawCells) := by
  induction fv with
  | nil =>
      intro out
      simp [csvGo]
  | cons r fv ih =>
      intro out
      have hshape :
          ((r :: fv).map (fun r => joinComma (rowCells r) ++ ['\n'])).flatten
            = joinComma (rowCells r) ++ '\n' ::
                ((fv.map (fun r => joinComma (rowCells r) ++ ['\n'])).flatten) := by
        simp [List.flatten_cons, List.append_assoc]
      rw [hshape, ← rowPairs_snd,
        record_full (rowPairs r) (rowPairs_cellEnc r) (by simp [rowPairs]) out _,
        rowPairs_fst, ih (rawCells r :: out)]
      simp

lemma to_csv_scan (fv : List AppRecord) :
    csvGo (to_csv fv) CsvMode.fieldStart [] [] []
      = some (headerCells :: fv.map rawCells) := by
  rw [to_csv, ← headerPairs_snd,
    record_full headerPairs headerPairs_cellEnc (by decide) [] _,
    headerPairs_fst, body_scan fv [headerCells]]
  rfl

/-- The float value has an exact decimal rendering at the encoder's chosen
scale.  Every Python float satisfies this (a float is an integer multiple of
a power of two, hence a decimal rational). -/
def DecOK (x : Option ℚ) : Prop :=
  ∀ q : ℚ, x = some q → (q.den : ℕ) ∣ 10 ^ decScale q

/-- Conditions under which a row survives the CSV round trip: present
string cells are non-empty (an empty string is exported as an empty field
and re-parsed as missing), and float cells are exactly decimal (true of
floats). -/
def RowOK (r : AppRecord) : Prop :=
  r.App ≠ some [] ∧ r.Category ≠ some [] ∧ DecOK r.Rating ∧
    DecOK r.Price_Clean ∧ DecOK r.Size_MB ∧
    DecOK r.sentiment_polarity_mean ∧ DecOK r.positive_percentage ∧
    DecOK r.negative_percentage

lemma ratDec_ne_nil (q : ℚ) : ratDec q ≠ [] := by
  rw [ratDec]
  by_cases hd : (q * 10 ^ decScale q).den = 1
  · rw [if_pos hd, fixedDec]
    by_cases hn : (q * 10 ^ decScale q).num < 0
    · rw [if_pos hn]
      simp
    · rw [if_neg hn]
      obtain ⟨c, rest, hrep, _⟩ := fixedDecNN_head_digit _ (decScale q)
      rw [hrep]
      simp
  · rw [if_neg hd]
    simp

lemma decodeQCell_cellOfQ (x : Option ℚ) (h : DecOK x) :
    decodeQCell (cellOfQ x) = some x := by
  cases x with
  | none => rfl
  | some q =>
      rw [cellOfQ, decodeQCell, if_neg (ratDec_ne_nil q),
        parseRatDec_ratDec q (h q rfl)]
      rfl

lemma decodeNCell_cellOfN (x : Option ℕ) : decodeNCell (cellOfN x) = some x := by
  cases x with
  | none => rfl
  | some n =>
      rw [cellOfN, decodeNCell, if_neg (natDec_ne_nil n), parseNatDec_natDec n]
      rfl

lemma decodeTypeCell_cellOfType (t : AppType) :
    decodeTypeCell (cellOfType t) = some t := by
  cases t <;> rfl

lemma decodeStr_getD {x : Option (List Char)} (h : x ≠ some []) :
    decodeStrCell (x.getD []) = x := by
  cases x with
  | none => rfl
  | some s =>
      have hs : s ≠ [] := fun hc => h (by rw [hc])
      rw [Option.getD_some, decodeStrCell, if_neg hs]

lemma decodeRow_rawCells (r : AppRecord) (h : RowOK r) :
    decodeRow (rawCells r) = some r := by
  obtain ⟨h1, h2, h3, h4, h5, h6, h7, h8⟩ := h
  simp only [rawCells, decodeRow, decodeTypeCell_cellOfType,
    decodeQCell_cellOfQ r.Rating h3, decodeNCell_cellOfN,
    decodeQCell_cellOfQ r.Price_Clean h4, decodeQCell_cellOfQ r.Size_MB h5,
    decodeQCell_cellOfQ r.sentiment_polarity_mean h6,
    decodeQCell_cellOfQ r.positive_percentage h7,
    decodeQCell_cellOfQ r.negative_percentage h8, Option.bind_eq_bind,
    Option.some_bind]
  rw [decodeStr_getD h1, decodeStr_getD h2]

lemma decodeRows_map (fv : List AppRecord) (h : ∀ r ∈ fv, RowOK r) :
    decodeRows (fv.map rawCells) = some fv := by
  induction fv with
  | nil => rfl
  | cons r fv ih =>
      simp only [List.map_cons, decodeRows,
        decodeRow_rawCells r (h r (List.mem_cons_self r fv)),
        ih (fun x hx => h x (List.mem_cons_of_mem r hx)),
        Option.bind_eq_bind, Option.some_bind]

/-- Claim C9 (amended): re-parsing the exported CSV of a filtered view
recovers the view exactly — including the schema, via the header record —
provided every present App and Category string is non-empty (an empty
string is exported as an empty field, which re-parses as missing) and every
float cell has an exact decimal rendering (true of binary floats). -/
theorem to_csv_roundtrip (fv : List AppRecord) (h : ∀ r ∈ fv, RowOK r) :
    read_csv (to_csv fv) = some fv := by
  unfold read_csv
  rw [to_csv_scan fv]
  simp only [if_pos rfl]
  exact decodeRows_map fv h

/-- A row whose App name is the empty string (and whose float cells are
NaN). -/
def rowEmptyName : AppRecord :=
  { App := some [], Category := some (str "CatA"), Type_ := AppType.Free,
    Rating := none, Reviews := some 5, Installs_Clean := none,
    Price_Clean := none, Size_MB := none, sentiment_polarity_mean := none,
    positive_percentage := none, negative_percentage := none }

/-- Claim C9 counterexample: exporting a view whose row has an empty-string
App name and re-parsing does not restore the view — the empty string comes
back as a missing value — so parse after export is not the identity on
every FilteredView. -/
theorem csv_roundtrip_counterexample :
    read_csv (to_csv [rowEmptyName]) ≠ some [rowEmptyName] ∧
    read_csv (to_csv [rowEmptyName])
      = some [{ rowEmptyName with App := none }] := by
  refine ⟨by decide, by decide⟩

/-- A row exercising quoting in the export: its App name contains commas
and quotes. -/
def rowCsv : AppRecord :=
  { App := some (str "Alpha, \"quoted\" app"),
    Category := some (str "CatA"), Type_ := AppType.Paid,
    Rating := some (Rat.mk' 9 2), Reviews := some 123,
    Installs_Clean := none, Price_Clean := none, Size_MB := none,
    sentiment_polarity_mean := none, positive_percentage := none,
    negative_percentage := none }

/-- Witness for the amended claim C9 theorem on a one-row view whose App
name needs CSV quoting. -/
theorem to_csv_roundtrip_witness :
    (∀ r ∈ [rowCsv], RowOK r) ∧ read_csv (to_csv [rowCsv]) = some [rowCsv] := by
  have hp : ∀ r ∈ [rowCsv], RowOK r := by
    intro r hr
    have hr' : r = rowCsv := by simpa using hr
    subst hr'
    refine ⟨by decide, by decide, ?_, ?_, ?_, ?_, ?_, ?_⟩
    · intro q hq
      have hq2 : some (Rat.mk' 9 2) = some q := hq
      have hq3 : Rat.mk' 9 2 = q := by injection hq2
      subst hq3
      decide
    all_goals exact fun q hq => Option.noConfusion hq
  exact ⟨hp, to_csv_roundtrip [rowCsv] hp⟩

end AppPulse
